import Mathlib

/-!
# Verification of the rs-aggregator instruction/ledger core

Shallow embedding of the Rust sources of `XOXNO/rs-aggregator`:
`src/vault.rs` (balance ledger), `src/types.rs` (compact decoding types),
`src/aggregator.rs` (decoder, execution engine, fee accrual) and
`src/zap.rs` (pre-swap solver).

Unbounded `BigUint` values are modelled as `Nat`; token identifiers
(`ManagedBuffer` byte strings) are modelled as `Nat` codes, with
reserved codes for the empty buffer and the EGLD identifiers.
Fallible operations (the SC's `signal_error` / `require!` / panicking
`unwrap`) are modelled with `Except AggError`: an error value aborts
the whole batch, which matches the contract's atomic-transaction
semantics (an aborted call commits nothing).
-/

set_option maxRecDepth 4000

namespace RsAggregator

/-- Token identifiers (byte buffers) encoded as `Nat`. -/
abbrev Token := Nat

/-- Code of `ManagedBuffer::new()` (the empty buffer, produced by
`token_idx_to_buffer` for `IDX_NONE`). -/
def EMPTY_BUF : Token := 0

/-- Code of the `EGLD-000000` token identifier. -/
def EGLD_TOKEN : Token := 1

/-- Code of the legacy `"EGLD"` identifier accepted by `Vault::from_payment`. -/
def EGLD_LEGACY : Token := 2

/-- Errors signalled by the contract.  Every constructor corresponds to a
`signal_error` / `require!` / panicking `unwrap` site in the source; any of
them aborts the whole batch atomically. -/
inductive AggError where
  /-- `ERR_TOKEN_NOT_FOUND_PREFIX` in `Vault::balance_of`. -/
  | tokenNotFound (t : Token)
  /-- `ERR_INSUFFICIENT_BALANCE_PREFIX` in `Vault::withdraw` (carries
  token, have, need). -/
  | insufficientBalance (t : Token) (hav need : Nat)
  /-- `"PPM exceeds 1,000,000 (100%)"` in `Vault::ppm_of`. -/
  | invalidPpm (ppm : Nat)
  /-- `"PrevAmount not available"` in `execute_instruction`. -/
  | prevAmountUnavailable
  /-- `"PrevAmount token mismatch"` in `execute_instruction`. -/
  | prevAmountMismatch
  /-- `"Zero input amount"` in `execute_instruction`. -/
  | zeroInputAmount
  /-- `"Slippage limit exceeded: have .., need .."` in `aggregate`. -/
  | insufficientOutput (hav need : Nat)
  /-- `"Invalid action type"` in `decode_compact_instruction`. -/
  | invalidAction (b : Nat)
  /-- Out-of-range `ManagedVec::get` on one of the three registries
  (the VM traps on an out-of-range index). -/
  | registryOutOfBounds
  /-- `ERR_ONLY_FUNGIBLE_PREFIX` in `Vault::from_payment`. -/
  | onlyFungible
  /-- A panicking `into_non_zero().unwrap()` / `get_prev_result().unwrap()`. -/
  | unwrapPanic
  deriving Repr, DecidableEq

/-! ## Association-list maps

`ManagedMapEncoded` (and the storage fee maps) are key/value maps; they are
modelled as association lists whose `put` replaces an existing binding. -/

/-- Map lookup (`ManagedMapEncoded::get` / `contains`). -/
def mget? {κ α : Type} [DecidableEq κ] : List (κ × α) → κ → Option α
  | [], _ => none
  | (k', v) :: rest, k => if k' = k then some v else mget? rest k

/-- Map update (`ManagedMapEncoded::put`): replaces the binding if the key is
present, appends it otherwise. -/
def mput {κ α : Type} [DecidableEq κ] : List (κ × α) → κ → α → List (κ × α)
  | [], k, v => [(k, v)]
  | (k', v') :: rest, k, v =>
      if k' = k then (k, v) :: rest else (k', v') :: mput rest k v

/-- Map removal (`ManagedMapEncoded::remove`). -/
def mremove {κ α : Type} [DecidableEq κ] : List (κ × α) → κ → List (κ × α)
  | [], _ => []
  | (k', v) :: rest, k =>
      if k' = k then mremove rest k else (k', v) :: mremove rest k

/-- Remove the first occurrence of a token from the ordered token list
(the linear scan + `remove(index)` in `Vault::remove_token_entry`). -/
def removeFirstToken : List Token → Token → List Token
  | [], _ => []
  | t' :: rest, t => if t' = t then rest else t' :: removeFirstToken rest t

/-! ## The balance ledger (`src/vault.rs`) -/

/-- `Vault` from `src/vault.rs`: a balance map, an insertion-ordered token
list, and the previous-result slot used for chaining. -/
structure Vault where
  balances : List (Token × Nat)
  tokens : List Token
  prevResult : Option (Token × Nat)
  deriving Repr, DecidableEq

/-- `Vault::new`. -/
def Vault.new : Vault := ⟨[], [], none⟩

/-- `Vault::balance_of`: signals `Token not found in vault` when the token is
absent from the map, otherwise returns the stored balance. -/
def Vault.balance_of (v : Vault) (t : Token) : Except AggError Nat :=
  match mget? v.balances t with
  | some b => .ok b
  | none => .error (.tokenNotFound t)

/-- `Vault::deposit` (amount is a `NonZeroBigUint` in the source; positivity
is carried as a hypothesis where the invariant needs it). -/
def Vault.deposit (v : Vault) (t : Token) (amount : Nat) : Vault :=
  match mget? v.balances t with
  | none =>
      { v with tokens := v.tokens ++ [t], balances := mput v.balances t amount }
  | some current =>
      { v with balances := mput v.balances t (current + amount) }

/-- `Vault::remove_token_entry`: drops the map binding and the first matching
entry of the ordered list. -/
def Vault.remove_token_entry (v : Vault) (t : Token) : Vault :=
  { v with
    balances := mremove v.balances t,
    tokens := removeFirstToken v.tokens t }

/-- `Vault::withdraw`: errors with the detailed insufficient-balance message
when `current < amount`; on exact depletion removes the whole entry,
otherwise stores the decremented balance.  Returns the withdrawn amount. -/
def Vault.withdraw (v : Vault) (t : Token) (amount : Nat) :
    Except AggError (Nat × Vault) := do
  let current ← v.balance_of t
  if current < amount then
    .error (.insufficientBalance t current amount)
  else
    let newBalance := current - amount
    if newBalance = 0 then
      .ok (amount, v.remove_token_entry t)
    else
      .ok (amount, { v with balances := mput v.balances t newBalance })

/-- `Vault::withdraw_all`. -/
def Vault.withdraw_all (v : Vault) (t : Token) : Except AggError (Nat × Vault) := do
  let amount ← v.balance_of t
  if amount > 0 then
    .ok (amount, v.remove_token_entry t)
  else
    .ok (amount, v)

/-- `Vault::ppm_of`: rejects `ppm > 1_000_000`, then computes the truncated
fraction of the current balance. -/
def Vault.ppm_of (v : Vault) (t : Token) (ppm : Nat) : Except AggError Nat := do
  if ppm > 1000000 then
    .error (.invalidPpm ppm)
  else
    let balance ← v.balance_of t
    .ok (balance * ppm / 1000000)

/-- `Vault::withdraw_ppm`. -/
def Vault.withdraw_ppm (v : Vault) (t : Token) (ppm : Nat) :
    Except AggError (Nat × Vault) := do
  let amount ← v.ppm_of t ppm
  if amount > 0 then
    v.withdraw t amount
  else
    .ok (0, v)

/-- `Vault::has_minimum`. -/
def Vault.has_minimum (v : Vault) (t : Token) (minAmount : Nat) :
    Except AggError Bool := do
  let b ← v.balance_of t
  .ok (minAmount ≤ b)

/-- `Vault::from_payment`: rejects non-zero nonces, normalizes the EGLD
identifiers, and deposits the (non-zero, by `into_non_zero().unwrap()`)
amount. -/
def Vault.from_payment (token : Token) (nonce amount : Nat) :
    Except AggError Vault :=
  if nonce ≠ 0 then
    .error .onlyFungible
  else
    let tokenId :=
      if token = EMPTY_BUF ∨ token = EGLD_TOKEN ∨ token = EGLD_LEGACY then
        EGLD_TOKEN
      else token
    if amount = 0 then
      .error .unwrapPanic
    else
      .ok (Vault.new.deposit tokenId amount)

/-- `Vault::get_all_payments`: enumerates the ordered token list, reading each
balance (`into_non_zero().unwrap()` panics on a zero balance, which the
invariant rules out). -/
def Vault.get_all_payments (v : Vault) : Except AggError (List (Token × Nat)) :=
  go v.tokens
where
  go : List Token → Except AggError (List (Token × Nat))
    | [] => .ok []
    | t :: rest => do
        let amount ← v.balance_of t
        if amount = 0 then
          .error .unwrapPanic
        else
          let tail ← go rest
          .ok ((t, amount) :: tail)

/-! ## Compact instruction types (`src/types.rs`) -/

/-- `IDX_NONE` sentinel ("no value"). -/
def IDX_NONE : Nat := 255

/-- `IDX_EGLD` sentinel ("native coin"). -/
def IDX_EGLD : Nat := 254

/-- `IDX_AUTO` sentinel ("auto-resolve address"). -/
def IDX_AUTO : Nat := 255

/-- `MODE_PPM_THRESHOLD`. -/
def MODE_PPM_THRESHOLD : Nat := 128

/-- `CompactAction` from `src/types.rs` (action byte values 0..24). -/
inductive CompactAction where
  | xExchangeSwap
  | xExchangeAddLiquidity
  | xExchangeRemoveLiquidity
  | ashSwapPoolSwap
  | ashSwapPoolAddLiquidity
  | ashSwapPoolRemoveLiquidity
  | ashSwapV2Swap
  | ashSwapV2AddLiquidity
  | ashSwapV2RemoveLiquidity
  | oneDexSwap
  | oneDexAddLiquidity
  | oneDexRemoveLiquidity
  | jexSwap
  | jexAddLiquidity
  | jexRemoveLiquidity
  | jexStableSwap
  | jexStableAddLiquidity
  | jexStableRemoveLiquidity
  | wrapping
  | unWrapping
  | xoxnoLiquidStaking
  | lXoxnoLiquidStaking
  | hatomLiquidStaking
  | hatomRedeem
  | hatomSupply
  deriving Repr, DecidableEq

/-- `CompactAction::from_u8`. -/
def CompactAction.from_u8 (value : Nat) : Option CompactAction :=
  match value with
  | 0 => some .xExchangeSwap
  | 1 => some .xExchangeAddLiquidity
  | 2 => some .xExchangeRemoveLiquidity
  | 3 => some .ashSwapPoolSwap
  | 4 => some .ashSwapPoolAddLiquidity
  | 5 => some .ashSwapPoolRemoveLiquidity
  | 6 => some .ashSwapV2Swap
  | 7 => some .ashSwapV2AddLiquidity
  | 8 => some .ashSwapV2RemoveLiquidity
  | 9 => some .oneDexSwap
  | 10 => some .oneDexAddLiquidity
  | 11 => some .oneDexRemoveLiquidity
  | 12 => some .jexSwap
  | 13 => some .jexAddLiquidity
  | 14 => some .jexRemoveLiquidity
  | 15 => some .jexStableSwap
  | 16 => some .jexStableAddLiquidity
  | 17 => some .jexStableRemoveLiquidity
  | 18 => some .wrapping
  | 19 => some .unWrapping
  | 20 => some .xoxnoLiquidStaking
  | 21 => some .lXoxnoLiquidStaking
  | 22 => some .hatomLiquidStaking
  | 23 => some .hatomRedeem
  | 24 => some .hatomSupply
  | _ => none

/-- `CompactAction::needs_output_token`. -/
def CompactAction.needs_output_token : CompactAction → Bool
  | .xExchangeSwap | .ashSwapPoolSwap | .oneDexSwap | .jexStableSwap
  | .hatomSupply => true
  | _ => false

/-- `CompactAction::is_multi_input_add_liquidity`. -/
def CompactAction.is_multi_input_add_liquidity : CompactAction → Bool
  | .ashSwapPoolAddLiquidity | .ashSwapV2AddLiquidity
  | .jexStableAddLiquidity => true
  | _ => false

/-- `CompactAction::needs_output_count`. -/
def CompactAction.needs_output_count : CompactAction → Bool
  | .ashSwapPoolRemoveLiquidity | .ashSwapV2RemoveLiquidity
  | .jexStableRemoveLiquidity => true
  | _ => false

/-- `CompactAction::needs_pair_id`. -/
def CompactAction.needs_pair_id : CompactAction → Bool
  | .oneDexAddLiquidity => true
  | _ => false

/-- `CompactMode` from `src/types.rs`. -/
inductive CompactMode where
  | all
  | prev
  | fixed (idx : Nat)
  | ppm (idx : Nat)
  deriving Repr, DecidableEq

/-- `CompactMode::from_u8`: 0 = All, 1 = Prev, 128..255 = Ppm(v - 128),
2..127 = Fixed(v - 2). -/
def CompactMode.from_u8 (value : Nat) : CompactMode :=
  if value = 0 then .all
  else if value = 1 then .prev
  else if value ≥ MODE_PPM_THRESHOLD then .ppm (value - MODE_PPM_THRESHOLD)
  else .fixed (value - 2)

/-- `AmountMode` from `src/types.rs`. -/
inductive AmountMode where
  | fixed (amount : Nat)
  | ppm (p : Nat)
  | all
  | prevAmount
  deriving Repr, DecidableEq

/-- `InputArg` from `src/types.rs`. -/
structure InputArg where
  token : Token
  mode : AmountMode
  deriving Repr, DecidableEq

/-- `ActionType` from `src/types.rs`.  Pool addresses are modelled as `Nat`. -/
inductive ActionType where
  | xExchangeSwap (outToken : Token)
  | xExchangeAddLiquidity
  | xExchangeRemoveLiquidity
  | ashSwapPoolSwap (outToken : Token)
  | ashSwapPoolAddLiquidity
  | ashSwapPoolRemoveLiquidity (count : Nat)
  | ashSwapV2Swap
  | ashSwapV2AddLiquidity
  | ashSwapV2RemoveLiquidity (count : Nat)
  | oneDexSwap (outToken : Token)
  | oneDexAddLiquidity (pairId : Nat)
  | oneDexRemoveLiquidity
  | jexSwap
  | jexAddLiquidity
  | jexRemoveLiquidity
  | jexStableSwap (outToken : Token)
  | jexStableAddLiquidity
  | jexStableRemoveLiquidity
  | wrapping
  | unWrapping
  | xoxnoLiquidStaking
  | lXoxnoLiquidStaking
  | hatomLiquidStaking
  | hatomRedeem
  | hatomSupply (outToken : Token)
  deriving Repr, DecidableEq

/-- `Instruction` from `src/types.rs`. -/
structure Instruction where
  action : ActionType
  inputs : Option (List InputArg)
  address : Option Nat
  deriving Repr, DecidableEq

/-! ## The instruction decoder (`src/aggregator.rs`) -/

/-- Out-of-range `ManagedVec::get` traps; in-range access returns the item. -/
def regGet {α : Type} (xs : List α) (i : Nat) : Except AggError α :=
  match xs.get? i with
  | some x => .ok x
  | none => .error .registryOutOfBounds

/-- `resolve_token_to_id` from `src/aggregator.rs`. -/
def resolve_token_to_id (idx : Nat) (tokens : List Token) :
    Except AggError Token :=
  if idx = IDX_EGLD then .ok EGLD_TOKEN
  else regGet tokens idx

/-- `resolve_token` from `src/aggregator.rs` (same resolution, producing a
`TokenIdentifier`). -/
def resolve_token (idx : Nat) (tokens : List Token) : Except AggError Token :=
  if idx = IDX_EGLD then .ok EGLD_TOKEN
  else regGet tokens idx

/-- `token_idx_to_buffer` from `src/aggregator.rs`: `IDX_EGLD` gives the EGLD
identifier, `IDX_NONE` gives the empty buffer, anything else reads the token
registry. -/
def token_idx_to_buffer (idx : Nat) (tokens : List Token) :
    Except AggError Token :=
  if idx = IDX_EGLD then .ok EGLD_TOKEN
  else if idx = IDX_NONE then .ok EMPTY_BUF
  else regGet tokens idx

/-- `compact_mode_to_amount_mode` from `src/aggregator.rs`.  For `Ppm`, the
registry's `BigUint` goes through `to_u64().unwrap_or(0)` and an `as u32`
truncation. -/
def compact_mode_to_amount_mode (mode : CompactMode) (amounts : List Nat) :
    Except AggError AmountMode :=
  match mode with
  | .all => .ok .all
  | .prev => .ok .prevAmount
  | .fixed idx => do
      let a ← regGet amounts idx
      .ok (.fixed a)
  | .ppm idx => do
      let a ← regGet amounts idx
      let ppm64 := if a < 2 ^ 64 then a else 0
      .ok (.ppm (ppm64 % 2 ^ 32))

/-- `build_action_type` from `src/aggregator.rs`. -/
def build_action_type (compact : CompactAction) (tok1Idx : Nat)
    (tokens : List Token) : Except AggError ActionType :=
  match compact with
  | .xExchangeSwap => do
      let outToken ← resolve_token tok1Idx tokens
      .ok (.xExchangeSwap outToken)
  | .xExchangeAddLiquidity => .ok .xExchangeAddLiquidity
  | .xExchangeRemoveLiquidity => .ok .xExchangeRemoveLiquidity
  | .ashSwapPoolSwap => do
      let outToken ← resolve_token tok1Idx tokens
      .ok (.ashSwapPoolSwap outToken)
  | .ashSwapPoolAddLiquidity => .ok .ashSwapPoolAddLiquidity
  | .ashSwapPoolRemoveLiquidity => .ok (.ashSwapPoolRemoveLiquidity tok1Idx)
  | .ashSwapV2Swap => .ok .ashSwapV2Swap
  | .ashSwapV2AddLiquidity => .ok .ashSwapV2AddLiquidity
  | .ashSwapV2RemoveLiquidity => .ok (.ashSwapV2RemoveLiquidity tok1Idx)
  | .oneDexSwap => do
      let outToken ← resolve_token tok1Idx tokens
      .ok (.oneDexSwap outToken)
  | .oneDexAddLiquidity => .ok (.oneDexAddLiquidity tok1Idx)
  | .oneDexRemoveLiquidity => .ok .oneDexRemoveLiquidity
  | .jexSwap => .ok .jexSwap
  | .jexAddLiquidity => .ok .jexAddLiquidity
  | .jexRemoveLiquidity => .ok .jexRemoveLiquidity
  | .jexStableSwap => do
      let outToken ← resolve_token tok1Idx tokens
      .ok (.jexStableSwap outToken)
  | .jexStableAddLiquidity => .ok .jexStableAddLiquidity
  | .jexStableRemoveLiquidity => .ok .jexStableRemoveLiquidity
  | .wrapping => .ok .wrapping
  | .unWrapping => .ok .unWrapping
  | .xoxnoLiquidStaking => .ok .xoxnoLiquidStaking
  | .lXoxnoLiquidStaking => .ok .lXoxnoLiquidStaking
  | .hatomLiquidStaking => .ok .hatomLiquidStaking
  | .hatomRedeem => .ok .hatomRedeem
  | .hatomSupply => do
      let outToken ← resolve_token tok1Idx tokens
      .ok (.hatomSupply outToken)

/-- The `if idx != IDX_NONE { inputs.push(InputArg { .. }) }` step of the
multi-input branch of `build_inputs`: appends the indexed token with the
shared mode unless the index is the "no value" sentinel. -/
def pushOptionalInput (acc : List InputArg) (idx : Nat) (am : AmountMode)
    (tokens : List Token) : Except AggError (List InputArg) :=
  if idx ≠ IDX_NONE then do
    let tok ← token_idx_to_buffer idx tokens
    pure (acc ++ [⟨tok, am⟩])
  else
    pure acc

/-- `build_inputs` from `src/aggregator.rs`: the per-category byte-layout
rules producing the optional input list (`.ok none` is the "chain from the
previous step" signal). -/
def build_inputs (compactAction : CompactAction)
    (tok1Idx mode1 tok2Idx mode2 addrIdx : Nat)
    (tokens : List Token) (amounts : List Nat) :
    Except AggError (Option (List InputArg)) :=
  if compactAction.needs_output_token then
    let inputTokenIdx := mode1
    let inputMode := CompactMode.from_u8 tok2Idx
    if inputMode = .prev ∧ inputTokenIdx = IDX_NONE then
      .ok none
    else do
      let inputTokenBuf ← token_idx_to_buffer inputTokenIdx tokens
      let amountMode ← compact_mode_to_amount_mode inputMode amounts
      .ok (some [⟨inputTokenBuf, amountMode⟩])
  else if compactAction.is_multi_input_add_liquidity then do
    let sharedMode := CompactMode.from_u8 mode2
    let amountMode ← compact_mode_to_amount_mode sharedMode amounts
    let tok1 ← token_idx_to_buffer tok1Idx tokens
    let inputs1 : List InputArg := [⟨tok1, amountMode⟩]
    let inputs2 ← pushOptionalInput inputs1 mode1 amountMode tokens
    let inputs3 ← pushOptionalInput inputs2 tok2Idx amountMode tokens
    .ok (some inputs3)
  else if compactAction.needs_output_count then
    let inputTokenIdx := mode1
    let inputMode := CompactMode.from_u8 tok2Idx
    if inputMode = .prev ∧ inputTokenIdx = IDX_NONE then
      .ok none
    else do
      let tok ← token_idx_to_buffer inputTokenIdx tokens
      let amountMode ← compact_mode_to_amount_mode inputMode amounts
      .ok (some [⟨tok, amountMode⟩])
  else if compactAction.needs_pair_id then do
    let token1Idx := mode1
    let mode1Value := CompactMode.from_u8 tok2Idx
    let token2Idx := mode2
    let mode2Value := CompactMode.from_u8 addrIdx
    let tok1 ← token_idx_to_buffer token1Idx tokens
    let am1 ← compact_mode_to_amount_mode mode1Value amounts
    let tok2 ← token_idx_to_buffer token2Idx tokens
    let am2 ← compact_mode_to_amount_mode mode2Value amounts
    .ok (some [⟨tok1, am1⟩, ⟨tok2, am2⟩])
  else
    let compactMode1 := CompactMode.from_u8 mode1
    if compactMode1 = .prev ∧ tok1Idx = IDX_NONE then
      .ok none
    else do
      let token1Buf ← token_idx_to_buffer tok1Idx tokens
      let amountMode1 ← compact_mode_to_amount_mode compactMode1 amounts
      let inputs1 : List InputArg := [⟨token1Buf, amountMode1⟩]
      let inputs2 ←
        if tok2Idx ≠ IDX_NONE then do
          let token2Buf ← token_idx_to_buffer tok2Idx tokens
          let compactMode2 := CompactMode.from_u8 mode2
          let amountMode2 ← compact_mode_to_amount_mode compactMode2 amounts
          pure (inputs1 ++ [⟨token2Buf, amountMode2⟩])
        else pure inputs1
      .ok (some inputs2)

/-- `decode_compact_instruction` from `src/aggregator.rs`. -/
def decode_compact_instruction
    (actionByte tok1Idx mode1 tok2Idx mode2 addrIdx : Nat)
    (tokens : List Token) (addresses : List Nat) (amounts : List Nat) :
    Except AggError Instruction := do
  match CompactAction.from_u8 actionByte with
  | none => .error (.invalidAction actionByte)
  | some compactAction => do
      let action ← build_action_type compactAction tok1Idx tokens
      let inputs ← build_inputs compactAction tok1Idx mode1 tok2Idx mode2
        addrIdx tokens amounts
      let address ←
        if addrIdx = IDX_AUTO then
          pure none
        else do
          let a ← regGet addresses addrIdx
          pure (some a)
      .ok ⟨action, inputs, address⟩

/-! ## The pre-swap solver (`src/zap.rs`)

All arithmetic is over `BigUint`, modelled as `Nat`.  `Nat` subtraction
truncates at zero where `BigUint` subtraction would panic; every subtraction
below is guarded in the source (`fee_denom - fee_num` after the
`fee_num > fee_denom` check, `high - low` with `low < high`, etc.), so the two
agree on all reachable states.  Likewise `Nat` division by zero yields 0 where
`BigUint` division panics; the claims below never exercise a zero divisor. -/

/-- `MAX_BINARY_SEARCH_ITERATIONS` from `src/zap.rs`. -/
def MAX_BINARY_SEARCH_ITERATIONS : Nat := 128

/-- `FeeMode` from `src/zap.rs`. -/
inductive FeeMode where
  | onInput (specialFeeNum : Nat)
  | onOutput (lpFeeNum : Nat)
  deriving Repr, DecidableEq

/-- `simulate_swap_output` from `src/zap.rs`: returns
`(output, amount_out_leaving, amount_in_to_reserves)`. -/
def simulate_swap_output (amountIn reserveIn reserveOut feeNum feeDenom : Nat)
    (feeMode : FeeMode) : Nat × Nat × Nat :=
  if amountIn = 0 ∨ reserveIn = 0 ∨ reserveOut = 0 then
    (0, 0, 0)
  else if feeNum > feeDenom then
    (0, 0, 0)
  else
    let feeFactor := feeDenom - feeNum
    match feeMode with
    | .onInput specialFeeNum =>
        let numerator := amountIn * feeFactor * reserveOut
        let denominator := reserveIn * feeDenom + amountIn * feeFactor
        let output := numerator / denominator
        let specialFee := amountIn * specialFeeNum / feeDenom
        let amountInToReserves := amountIn - specialFee
        (output, output, amountInToReserves)
    | .onOutput lpFeeNum =>
        let numerator := amountIn * reserveOut
        let denominator := reserveIn + amountIn
        let rawOutput := numerator / denominator
        let output := rawOutput * feeFactor / feeDenom
        let lpFeeFactor := feeDenom - lpFeeNum
        let amountOutLeaving := rawOutput * lpFeeFactor / feeDenom
        (output, amountOutLeaving, amountIn)

/-- One state of the binary search in `binary_search_pre_swap`:
`(low, high, best_swap, best_dust)`. -/
structure BsState where
  low : Nat
  high : Nat
  bestSwap : Nat
  bestDust : Nat
  deriving Repr, DecidableEq

/-- The `for _ in 0..MAX_BINARY_SEARCH_ITERATIONS` loop of
`binary_search_pre_swap`, as fuel recursion over the remaining iteration
count. -/
def bsLoop (swapBalance otherBalance reserveIn reserveOut : Nat)
    (feeNum feeDenom : Nat) (feeMode : FeeMode) : BsState → Nat → Nat
  | s, 0 => s.bestSwap
  | s, fuel + 1 =>
    if s.high ≤ s.low + 1 then
      s.bestSwap
    else
      let mid := s.low + (s.high - s.low) / 2
      let (received, amountOutLeaving, amountInToReserves) :=
        simulate_swap_output mid reserveIn reserveOut feeNum feeDenom feeMode
      if received = 0 then
        bsLoop swapBalance otherBalance reserveIn reserveOut feeNum feeDenom
          feeMode { s with low := mid } fuel
      else
        let finalSwapBalance := swapBalance - mid
        let finalOtherBalance := otherBalance + received
        let newReserveIn := reserveIn + amountInToReserves
        let newReserveOut := reserveOut - amountOutLeaving
        let quoteOtherFromSwap := finalSwapBalance * newReserveOut / newReserveIn
        let dust :=
          if quoteOtherFromSwap ≤ finalOtherBalance then
            finalOtherBalance - quoteOtherFromSwap
          else
            finalSwapBalance - finalOtherBalance * newReserveIn / newReserveOut
        let s' :=
          if dust < s.bestDust then
            { s with bestSwap := mid, bestDust := dust }
          else s
        let productSwap := finalSwapBalance * newReserveOut
        let productOther := finalOtherBalance * newReserveIn
        if productOther < productSwap then
          bsLoop swapBalance otherBalance reserveIn reserveOut feeNum feeDenom
            feeMode { s' with low := mid } fuel
        else if productSwap < productOther then
          bsLoop swapBalance otherBalance reserveIn reserveOut feeNum feeDenom
            feeMode { s' with high := mid } fuel
        else
          mid

/-- `binary_search_pre_swap` from `src/zap.rs`. -/
def binary_search_pre_swap (balanceFirst balanceSecond reserveFirst
    reserveSecond feeNum feeDenom : Nat) (feeMode : FeeMode)
    (swapFromFirst : Bool) : Nat :=
  let (swapBalance, otherBalance, reserveIn, reserveOut) :=
    if swapFromFirst then
      (balanceFirst, balanceSecond, reserveFirst, reserveSecond)
    else
      (balanceSecond, balanceFirst, reserveSecond, reserveFirst)
  bsLoop swapBalance otherBalance reserveIn reserveOut feeNum feeDenom feeMode
    ⟨0, swapBalance, 0, swapBalance⟩ MAX_BINARY_SEARCH_ITERATIONS

/-- `compute_optimal_pre_swap` from `src/zap.rs`: returns
`(swap_from_first, swap_amount)`. -/
def compute_optimal_pre_swap (balanceFirst balanceSecond reserveFirst
    reserveSecond feeNum feeDenom : Nat) (feeMode : FeeMode) : Bool × Nat :=
  if balanceFirst = 0 ∨ balanceSecond = 0 ∨ reserveFirst = 0 ∨
      reserveSecond = 0 then
    (true, 0)
  else
    let productFirst := balanceFirst * reserveSecond
    let productSecond := balanceSecond * reserveFirst
    if productSecond < productFirst then
      (true, binary_search_pre_swap balanceFirst balanceSecond reserveFirst
        reserveSecond feeNum feeDenom feeMode true)
    else if productFirst < productSecond then
      (false, binary_search_pre_swap balanceFirst balanceSecond reserveFirst
        reserveSecond feeNum feeDenom feeMode false)
    else
      (true, 0)

/-! ## Fee pools and fee accrual (`src/aggregator.rs`) -/

/-- `ReferralConfig` from `src/types.rs` (owner address modelled as `Nat`). -/
structure ReferralConfig where
  owner : Nat
  fee : Nat
  active : Bool
  deriving Repr, DecidableEq

/-- The persistent fee state: `referral_config`, `static_fee`. -/
structure FeeConfig where
  referralConfigs : List (Nat × ReferralConfig)
  staticFee : Nat
  deriving Repr, DecidableEq

/-- The persistent fee pools: `admin_fees` and `referrer_balances`
(the latter keyed by referral id and token). -/
structure FeePools where
  adminFees : List (Token × Nat)
  referrerFees : List ((Nat × Token) × Nat)
  deriving Repr, DecidableEq

/-- `accumulate_admin_fee` from `src/aggregator.rs`. -/
def accumulate_admin_fee (pools : FeePools) (t : Token) (amount : Nat) :
    FeePools :=
  let current := (mget? pools.adminFees t).getD 0
  { pools with adminFees := mput pools.adminFees t (current + amount) }

/-- `accumulate_referrer_fee` from `src/aggregator.rs`. -/
def accumulate_referrer_fee (pools : FeePools) (id : Nat) (t : Token)
    (amount : Nat) : FeePools :=
  let current := (mget? pools.referrerFees (id, t)).getD 0
  { pools with referrerFees := mput pools.referrerFees (id, t) (current + amount) }

/-- `apply_fees` from `src/aggregator.rs`: an active referral with a positive
fee accrues `balance * fee / 10_000` to the referrer and the same amount to
the protocol, withdrawing their sum from the vault; otherwise the static fee
(if positive) accrues to the protocol alone. -/
def apply_fees (cfg : FeeConfig) (v : Vault) (tokenOut : Token)
    (referralId : Nat) (pools : FeePools) :
    Except AggError (Vault × FeePools) := do
  let outputBalance ← v.balance_of tokenOut
  let referralBranch :=
    if referralId > 0 then
      match mget? cfg.referralConfigs referralId with
      | some config =>
          if config.active ∧ config.fee > 0 then some config else none
      | none => none
    else none
  match referralBranch with
  | some config => do
      let referralFee := outputBalance * config.fee / 10000
      let adminFee := referralFee
      let total := referralFee + adminFee
      let (_, v') ← v.withdraw tokenOut total
      let pools' := accumulate_referrer_fee pools referralId tokenOut referralFee
      .ok (v', accumulate_admin_fee pools' tokenOut adminFee)
  | none =>
      if cfg.staticFee > 0 then do
        let fee := outputBalance * cfg.staticFee / 10000
        let (_, v') ← v.withdraw tokenOut fee
        .ok (v', accumulate_admin_fee pools tokenOut fee)
      else
        .ok (v, pools)

/-! ## The execution engine (`src/aggregator.rs`)

External venue calls are synchronous black boxes: each step's back-transfer
list is supplied as an environment parameter (`venueOut`), and the engine's
ledger-visible behaviour (withdrawals, deposits, previous-result tracking,
dust accrual) is modelled faithfully around it.  `Payment` amounts are
`NonZeroBigUint` in the source, so venue outputs carry positive amounts. -/

/-- `is_zappable_add_liquidity` from `src/aggregator.rs`. -/
def is_zappable_add_liquidity : ActionType → Bool
  | .xExchangeAddLiquidity | .oneDexAddLiquidity _ | .jexAddLiquidity => true
  | _ => false

/-- The per-input withdrawal of `execute_instruction`: resolves the amount
per `AmountMode` (with the `PrevAmount` availability and token-match checks)
and rejects a zero resolved amount. -/
def resolveInput (v : Vault) (input : InputArg) :
    Except AggError (Nat × Vault) := do
  let t := input.token
  let (actualAmount, v') ←
    match input.mode with
    | .fixed amount => v.withdraw t amount
    | .ppm p => v.withdraw_ppm t p
    | .all => v.withdraw_all t
    | .prevAmount =>
        match v.prevResult with
        | none => .error .prevAmountUnavailable
        | some (prevToken, prevAmount) =>
            if t = prevToken then
              v.withdraw t prevAmount
            else
              .error .prevAmountMismatch
  if actualAmount > 0 then
    .ok (actualAmount, v')
  else
    .error .zeroInputAmount

/-- The input-withdrawal loop of `execute_instruction`, producing the payment
list forwarded to the venue. -/
def resolveInputs : Vault → List InputArg →
    Except AggError (List (Token × Nat) × Vault)
  | v, [] => .ok ([], v)
  | v, input :: rest => do
      let (amount, v') ← resolveInput v input
      let (payments, v'') ← resolveInputs v' rest
      .ok ((input.token, amount) :: payments, v'')

/-- The back-transfer handling at the end of `dispatch_to_proxy`: a single
returned payment becomes the new previous result, and every returned payment
is deposited. -/
def dispatchResult (v : Vault) (venueOut : List (Token × Nat)) : Vault :=
  venueOut.foldl
    (fun acc p =>
      let acc' :=
        if venueOut.length = 1 then { acc with prevResult := some p } else acc
      acc'.deposit p.1 p.2)
    v

/-- The final result handling of `pre_balance_and_add_liquidity`: payments of
the declared output token are deposited, everything else accrues to the
protocol fee pool as dust. -/
def dispatchZapResult (v : Vault) (pools : FeePools) (tokenOut : Token)
    (venueOut : List (Token × Nat)) : Vault × FeePools :=
  venueOut.foldl
    (fun (acc : Vault × FeePools) p =>
      if p.1 = tokenOut then
        (acc.1.deposit p.1 p.2, acc.2)
      else
        (acc.1, accumulate_admin_fee acc.2 p.1 p.2))
    (v, pools)

/-- `execute_instruction` from `src/aggregator.rs`: withdraws the inputs
(or takes the previous result verbatim when the input list is absent) and
dispatches, handling the venue's back transfers.  `venueOut` abstracts the
external venue's returned payments. -/
def executeInstruction (venueOut : List (Token × Nat)) (tokenOut : Token)
    (v : Vault) (pools : FeePools) (instr : Instruction) :
    Except AggError (Vault × FeePools) := do
  let (_, v1) ←
    match instr.inputs with
    | some inputs => resolveInputs v inputs
    | none =>
        match v.prevResult with
        | none => .error .unwrapPanic
        | some (prevToken, prevAmount) => do
            let (_, v') ← v.withdraw prevToken prevAmount
            .ok ([(prevToken, prevAmount)], v')
  if is_zappable_add_liquidity instr.action then
    .ok (dispatchZapResult v1 pools tokenOut venueOut)
  else
    .ok (dispatchResult v1 venueOut, pools)

/-- A compact 6-byte instruction tuple. -/
abbrev Compact6 := Nat × Nat × Nat × Nat × Nat × Nat

/-- The per-instruction loop of `aggregate`: decode each compact tuple, then
execute it (the paired list is that step's venue back transfers). -/
def runCompactInstructions (tokens : List Token) (addresses : List Nat)
    (amounts : List Nat) (tokenOutId : Token) :
    Vault → FeePools → List (Compact6 × List (Token × Nat)) →
    Except AggError (Vault × FeePools)
  | v, pools, [] => .ok (v, pools)
  | v, pools, (c, venueOut) :: rest => do
      let (actionByte, tok1Idx, mode1, tok2Idx, mode2, addrIdx) := c
      let instr ← decode_compact_instruction actionByte tok1Idx mode1 tok2Idx
        mode2 addrIdx tokens addresses amounts
      let (v', pools') ← executeInstruction venueOut tokenOutId v pools instr
      runCompactInstructions tokens addresses amounts tokenOutId v' pools' rest

/-- The `aggregate` (`xo`) endpoint from `src/aggregator.rs`: seed the vault
from the single incoming payment, decode and execute every compact
instruction, enforce the batch-level minimum output, apply fees, and return
the remaining vault contents.  An `.error` result models the transaction
aborting: nothing is transferred and no fee-pool mutation is committed. -/
def aggregate (cfg : FeeConfig) (pools0 : FeePools)
    (paymentToken : Token) (paymentNonce paymentAmount : Nat)
    (minAmountOut : Nat) (tokenOut : Nat) (referralId : Nat)
    (tokens : List Token) (addresses : List Nat) (amounts : List Nat)
    (instrs : List (Compact6 × List (Token × Nat))) :
    Except AggError (List (Token × Nat) × FeePools) := do
  let vault0 ← Vault.from_payment paymentToken paymentNonce paymentAmount
  let tokenOutId ← resolve_token_to_id tokenOut tokens
  let (v1, pools1) ← runCompactInstructions tokens addresses amounts tokenOutId
    vault0 pools0 instrs
  let currentBalance ← v1.balance_of tokenOutId
  if currentBalance < minAmountOut then
    .error (.insufficientOutput currentBalance minAmountOut)
  else do
    let (v2, pools2) ← apply_fees cfg v1 tokenOutId referralId pools1
    let outs ← v2.get_all_payments
    .ok (outs, pools2)

/-! ## Ledger invariant (claim C2 groundwork) -/

/-- The ledger invariant: the ordered token list has no duplicates, the
balance map's key list has no duplicates, every listed token has a map entry,
and every map entry has a listed token and a strictly positive balance
(so a zero balance is never retained, and the two key sets coincide). -/
def VaultInvariant (v : Vault) : Prop :=
  v.tokens.Nodup ∧
  (v.balances.map Prod.fst).Nodup ∧
  (∀ t ∈ v.tokens, (mget? v.balances t).isSome) ∧
  (∀ p ∈ v.balances, p.1 ∈ v.tokens ∧ 0 < p.2)

instance (v : Vault) : Decidable (VaultInvariant v) := by
  unfold VaultInvariant
  infer_instance

theorem mget?_mem {κ α : Type} [DecidableEq κ] {m : List (κ × α)} {k : κ}
    {b : α} (h : mget? m k = some b) : (k, b) ∈ m := by
  induction m with
  | nil => simp [mget?] at h
  | cons p rest ih =>
      obtain ⟨k', v⟩ := p
      by_cases hk : k' = k
      · subst hk
        simp [mget?] at h
        simp [h]
      · simp [mget?, hk] at h
        exact List.mem_cons_of_mem _ (ih h)

theorem mem_keys_isSome {κ α : Type} [DecidableEq κ] {m : List (κ × α)}
    {k : κ} (h : k ∈ m.map Prod.fst) : (mget? m k).isSome := by
  induction m with
  | nil => simp at h
  | cons p rest ih =>
      obtain ⟨k', v⟩ := p
      simp only [List.map_cons, List.mem_cons] at h
      by_cases hk : k' = k
      · subst hk
        simp [mget?]
      · rcases h with h | h
        · exact absurd h.symm hk
        · simp only [mget?, if_neg hk]
          exact ih h

theorem isSome_mem_keys {κ α : Type} [DecidableEq κ] {m : List (κ × α)}
    {k : κ} (h : (mget? m k).isSome) : k ∈ m.map Prod.fst := by
  obtain ⟨b, hb⟩ := Option.isSome_iff_exists.mp h
  exact List.mem_map.mpr ⟨(k, b), mget?_mem hb, rfl⟩

theorem mget?_mput_self {κ α : Type} [DecidableEq κ] (m : List (κ × α))
    (k : κ) (v : α) : mget? (mput m k v) k = some v := by
  induction m with
  | nil => simp [mput, mget?]
  | cons p rest ih =>
      obtain ⟨k', v'⟩ := p
      by_cases hk : k' = k
      · simp [mput, hk, mget?]
      · simp [mput, hk, mget?, ih]

theorem mget?_mput_ne {κ α : Type} [DecidableEq κ] (m : List (κ × α))
    {k k' : κ} (v : α) (h : k' ≠ k) :
    mget? (mput m k v) k' = mget? m k' := by
  induction m with
  | nil => simp [mput, mget?, Ne.symm h]
  | cons p rest ih =>
      obtain ⟨k'', v''⟩ := p
      by_cases hk : k'' = k
      · subst hk
        simp only [mput, if_pos rfl]
        simp [mget?, Ne.symm h]
      · by_cases hk' : k'' = k'
        · simp only [mput, if_neg hk, mget?, if_pos hk']
        · simp only [mput, if_neg hk, mget?, if_neg hk']
          exact ih

theorem keys_mput_some {κ α : Type} [DecidableEq κ] {m : List (κ × α)}
    {k : κ} {b : α} (v : α) (h : mget? m k = some b) :
    (mput m k v).map Prod.fst = m.map Prod.fst := by
  induction m with
  | nil => simp [mget?] at h
  | cons p rest ih =>
      obtain ⟨k', v'⟩ := p
      by_cases hk : k' = k
      · simp [mput, hk]
      · simp [mget?, hk] at h
        simp [mput, hk, ih h]

theorem keys_mput_none {κ α : Type} [DecidableEq κ] {m : List (κ × α)}
    {k : κ} (v : α) (h : mget? m k = none) :
    (mput m k v).map Prod.fst = m.map Prod.fst ++ [k] := by
  induction m with
  | nil => simp [mput]
  | cons p rest ih =>
      obtain ⟨k', v'⟩ := p
      by_cases hk : k' = k
      · simp [mget?, hk] at h
      · simp [mget?, hk] at h
        simp [mput, hk, ih h]

theorem mem_mput {κ α : Type} [DecidableEq κ] {m : List (κ × α)}
    {k : κ} {v : α} {p : κ × α} (h : p ∈ mput m k v) :
    p = (k, v) ∨ p ∈ m := by
  induction m with
  | nil => simp [mput] at h; simp [h]
  | cons q rest ih =>
      obtain ⟨k', v'⟩ := q
      by_cases hk : k' = k
      · simp [mput, hk] at h
        rcases h with h | h
        · exact Or.inl h
        · exact Or.inr (List.mem_cons_of_mem _ h)
      · simp [mput, hk] at h
        rcases h with h | h
        · exact Or.inr (by simp [h])
        · rcases ih h with h' | h'
          · exact Or.inl h'
          · exact Or.inr (List.mem_cons_of_mem _ h')

theorem mremove_sublist {κ α : Type} [DecidableEq κ] (m : List (κ × α))
    (k : κ) : (mremove m k).Sublist m := by
  induction m with
  | nil => simp [mremove]
  | cons p rest ih =>
      obtain ⟨k', v'⟩ := p
      by_cases hk : k' = k
      · simp only [mremove, if_pos hk]
        exact ih.cons _
      · simp only [mremove, if_neg hk]
        exact ih.cons₂ _

theorem mget?_mremove_self {κ α : Type} [DecidableEq κ] (m : List (κ × α))
    (k : κ) : mget? (mremove m k) k = none := by
  induction m with
  | nil => simp [mremove, mget?]
  | cons p rest ih =>
      obtain ⟨k', v'⟩ := p
      by_cases hk : k' = k
      · simp [mremove, hk, ih]
      · simp [mremove, hk, mget?, ih]

theorem mget?_mremove_ne {κ α : Type} [DecidableEq κ] (m : List (κ × α))
    {k k' : κ} (h : k' ≠ k) : mget? (mremove m k) k' = mget? m k' := by
  induction m with
  | nil => simp [mremove]
  | cons p rest ih =>
      obtain ⟨k'', v''⟩ := p
      by_cases hk : k'' = k
      · subst hk
        rw [show mremove ((k'', v'') :: rest) k'' = mremove rest k'' by
          simp [mremove]]
        rw [ih]
        simp [mget?, Ne.symm h]
      · by_cases hk' : k'' = k'
        · simp only [mremove, if_neg hk, mget?, if_pos hk']
        · simp only [mremove, if_neg hk, mget?, if_neg hk']
          exact ih

theorem mem_mremove {κ α : Type} [DecidableEq κ] {m : List (κ × α)}
    {k : κ} {p : κ × α} (h : p ∈ mremove m k) : p ∈ m ∧ p.1 ≠ k := by
  induction m with
  | nil => simp [mremove] at h
  | cons q rest ih =>
      obtain ⟨k', v'⟩ := q
      by_cases hk : k' = k
      · simp only [mremove, if_pos hk] at h
        obtain ⟨hm, hne⟩ := ih h
        exact ⟨List.mem_cons_of_mem _ hm, hne⟩
      · simp only [mremove, if_neg hk] at h
        rcases List.mem_cons.mp h with h | h
        · subst h
          exact ⟨List.mem_cons_self _ _, hk⟩
        · obtain ⟨hm, hne⟩ := ih h
          exact ⟨List.mem_cons_of_mem _ hm, hne⟩

theorem removeFirstToken_sublist (l : List Token) (k : Token) :
    (removeFirstToken l k).Sublist l := by
  induction l with
  | nil => simp [removeFirstToken]
  | cons t rest ih =>
      by_cases hk : t = k
      · simp only [removeFirstToken, if_pos hk]
        exact (List.sublist_cons_self _ _)
      · simp only [removeFirstToken, if_neg hk]
        exact ih.cons₂ _

theorem mem_removeFirstToken {l : List Token} (hnd : l.Nodup) (k : Token)
    {t : Token} : t ∈ removeFirstToken l k ↔ t ∈ l ∧ t ≠ k := by
  induction l with
  | nil => simp [removeFirstToken]
  | cons t' rest ih =>
      obtain ⟨hnotin, hnd'⟩ := List.nodup_cons.mp hnd
      by_cases hk : t' = k
      · subst hk
        simp only [removeFirstToken, if_pos rfl]
        constructor
        · intro h
          refine ⟨List.mem_cons_of_mem _ h, ?_⟩
          intro he
          exact hnotin (he ▸ h)
        · rintro ⟨h, hne⟩
          rcases List.mem_cons.mp h with h | h
          · exact absurd h hne
          · exact h
      · simp only [removeFirstToken, if_neg hk]
        constructor
        · intro h
          rcases List.mem_cons.mp h with h | h
          · subst h
            exact ⟨List.mem_cons_self _ _, hk⟩
          · obtain ⟨hm, hne⟩ := (ih hnd').mp h
            exact ⟨List.mem_cons_of_mem _ hm, hne⟩
        · rintro ⟨h, hne⟩
          rcases List.mem_cons.mp h with h | h
          · exact h ▸ List.mem_cons_self _ _
          · exact List.mem_cons_of_mem _ ((ih hnd').mpr ⟨h, hne⟩)

/-- `Vault::deposit` of a positive amount preserves the ledger invariant. -/
theorem deposit_invariant {v : Vault} (hv : VaultInvariant v) (t : Token)
    {amount : Nat} (hpos : 0 < amount) :
    VaultInvariant (v.deposit t amount) := by
  obtain ⟨hnd, hknd, hkeys, hvals⟩ := hv
  unfold Vault.deposit
  cases hget : mget? v.balances t with
  | none =>
      have htnot : t ∉ v.tokens := fun hmem => by
        have := hkeys t hmem
        rw [hget] at this
        simp at this
      have htnotk : t ∉ v.balances.map Prod.fst := fun hmem => by
        have := mem_keys_isSome hmem
        rw [hget] at this
        simp at this
      refine ⟨?_, ?_, ?_, ?_⟩
      · rw [List.nodup_append]
        refine ⟨hnd, List.nodup_singleton _, ?_⟩
        intro a ha hb
        simp only [List.mem_singleton] at hb
        exact htnot (hb ▸ ha)
      · rw [keys_mput_none amount hget, List.nodup_append]
        refine ⟨hknd, List.nodup_singleton _, ?_⟩
        intro a ha hb
        simp only [List.mem_singleton] at hb
        exact htnotk (hb ▸ ha)
      · intro t' ht'
        rcases List.mem_append.mp ht' with h | h
        · have hne : t' ≠ t := fun he => htnot (he ▸ h)
          rw [mget?_mput_ne _ _ hne]
          exact hkeys t' h
        · simp at h
          subst h
          simp [mget?_mput_self]
      · intro p hp
        rcases mem_mput hp with h | h
        · subst h
          exact ⟨by simp, hpos⟩
        · obtain ⟨hm, hb⟩ := hvals p h
          exact ⟨List.mem_append.mpr (Or.inl hm), hb⟩
  | some current =>
      have htk : t ∈ v.tokens := (hvals _ (mget?_mem hget)).1
      refine ⟨hnd, ?_, ?_, ?_⟩
      · rw [keys_mput_some _ hget]
        exact hknd
      · intro t' ht'
        by_cases hne : t' = t
        · subst hne
          simp [mget?_mput_self]
        · rw [mget?_mput_ne _ _ hne]
          exact hkeys t' ht'
      · intro p hp
        rcases mem_mput hp with h | h
        · subst h
          exact ⟨htk, Nat.lt_of_lt_of_le hpos (Nat.le_add_left _ _)⟩
        · exact hvals p h

/-- `Vault::remove_token_entry` preserves the ledger invariant. -/
theorem remove_token_entry_invariant {v : Vault} (hv : VaultInvariant v)
    (t : Token) : VaultInvariant (v.remove_token_entry t) := by
  obtain ⟨hnd, hknd, hkeys, hvals⟩ := hv
  unfold Vault.remove_token_entry
  refine ⟨?_, ?_, ?_, ?_⟩
  · exact hnd.sublist (removeFirstToken_sublist _ _)
  · exact hknd.sublist ((mremove_sublist _ _).map Prod.fst)
  · intro t' ht'
    obtain ⟨hm, hne⟩ := (mem_removeFirstToken hnd t).mp ht'
    rw [mget?_mremove_ne _ hne]
    exact hkeys t' hm
  · intro p hp
    obtain ⟨hm, hne⟩ := mem_mremove hp
    obtain ⟨hmem, hb⟩ := hvals p hm
    exact ⟨(mem_removeFirstToken hnd t).mpr ⟨hmem, hne⟩, hb⟩

/-- A successful `Vault::withdraw` preserves the ledger invariant. -/
theorem withdraw_invariant {v v' : Vault} (hv : VaultInvariant v)
    {t : Token} {amount a : Nat}
    (h : v.withdraw t amount = .ok (a, v')) : VaultInvariant v' := by
  unfold Vault.withdraw at h
  cases hget : v.balance_of t with
  | error e => rw [hget] at h; simp [bind, Except.bind] at h
  | ok current =>
      rw [hget] at h
      simp only [bind, Except.bind] at h
      by_cases hlt : current < amount
      · simp [hlt] at h
      · simp only [if_neg hlt] at h
        have hgetb : mget? v.balances t = some current := by
          unfold Vault.balance_of at hget
          cases hm : mget? v.balances t with
          | none => rw [hm] at hget; simp at hget
          | some b => rw [hm] at hget; simp at hget; rw [hget]
        by_cases hz : current - amount = 0
        · simp only [if_pos hz, Except.ok.injEq, Prod.mk.injEq] at h
          rw [← h.2]
          exact remove_token_entry_invariant hv t
        · simp only [if_neg hz, Except.ok.injEq, Prod.mk.injEq] at h
          rw [← h.2]
          obtain ⟨hnd, hknd, hkeys, hvals⟩ := hv
          have htk : t ∈ v.tokens := (hvals _ (mget?_mem hgetb)).1
          refine ⟨hnd, ?_, ?_, ?_⟩
          · rw [keys_mput_some _ hgetb]
            exact hknd
          · intro t' ht'
            by_cases hne : t' = t
            · subst hne
              simp [mget?_mput_self]
            · rw [mget?_mput_ne _ _ hne]
              exact hkeys t' ht'
          · intro p hp
            rcases mem_mput hp with hh | hh
            · subst hh
              exact ⟨htk, Nat.pos_of_ne_zero hz⟩
            · exact hvals p hh

/-- A successful `Vault::withdraw_all` preserves the ledger invariant. -/
theorem withdraw_all_invariant {v v' : Vault} (hv : VaultInvariant v)
    {t : Token} {a : Nat}
    (h : v.withdraw_all t = .ok (a, v')) : VaultInvariant v' := by
  unfold Vault.withdraw_all at h
  cases hget : v.balance_of t with
  | error e => rw [hget] at h; simp [bind, Except.bind] at h
  | ok amount =>
      rw [hget] at h
      simp only [bind, Except.bind] at h
      by_cases hz : amount > 0
      · simp only [if_pos hz, Except.ok.injEq, Prod.mk.injEq] at h
        rw [← h.2]
        exact remove_token_entry_invariant hv t
      · simp only [if_neg hz, Except.ok.injEq, Prod.mk.injEq] at h
        rw [← h.2]
        exact hv

/-- A successful `Vault::withdraw_ppm` preserves the ledger invariant. -/
theorem withdraw_ppm_invariant {v v' : Vault} (hv : VaultInvariant v)
    {t : Token} {ppm a : Nat}
    (h : v.withdraw_ppm t ppm = .ok (a, v')) : VaultInvariant v' := by
  unfold Vault.withdraw_ppm at h
  cases hget : v.ppm_of t ppm with
  | error e => rw [hget] at h; simp [bind, Except.bind] at h
  | ok amount =>
      rw [hget] at h
      simp only [bind, Except.bind] at h
      by_cases hz : amount > 0
      · simp only [if_pos hz] at h
        exact withdraw_invariant hv h
      · simp only [if_neg hz, Except.ok.injEq, Prod.mk.injEq] at h
        rw [← h.2]
        exact hv

/-- One ledger operation of the claimed sequence (`deposit`, `withdraw`,
`withdrawAll`, `withdrawPpm`). -/
inductive VaultOp where
  | deposit (t : Token) (amount : Nat)
  | withdraw (t : Token) (amount : Nat)
  | withdrawAll (t : Token)
  | withdrawPpm (t : Token) (ppm : Nat)
  deriving Repr, DecidableEq

/-- Apply one ledger operation.  A zero `deposit` amount models the panicking
`into_non_zero().unwrap()` every caller of `Vault::deposit` performs (the
`NonZeroBigUint` argument type makes a zero deposit impossible). -/
def applyOp (v : Vault) : VaultOp → Except AggError Vault
  | .deposit t amount =>
      if amount = 0 then .error .unwrapPanic else .ok (v.deposit t amount)
  | .withdraw t amount => do
      let (_, v') ← v.withdraw t amount
      .ok v'
  | .withdrawAll t => do
      let (_, v') ← v.withdraw_all t
      .ok v'
  | .withdrawPpm t ppm => do
      let (_, v') ← v.withdraw_ppm t ppm
      .ok v'

/-- Apply a sequence of ledger operations, aborting at the first error. -/
def runOps : Vault → List VaultOp → Except AggError Vault
  | v, [] => .ok v
  | v, op :: rest => do
      let v' ← applyOp v op
      runOps v' rest

/-- A single successful operation preserves the ledger invariant. -/
theorem applyOp_invariant {v v' : Vault} (hv : VaultInvariant v)
    {op : VaultOp} (h : applyOp v op = .ok v') : VaultInvariant v' := by
  cases op with
  | deposit t amount =>
      by_cases hz : amount = 0
      · simp [applyOp, hz] at h
      · simp only [applyOp, if_neg hz, Except.ok.injEq] at h
        rw [← h]
        exact deposit_invariant hv t (Nat.pos_of_ne_zero hz)
  | withdraw t amount =>
      simp only [applyOp] at h
      cases hw : v.withdraw t amount with
      | error e => rw [hw] at h; simp [bind, Except.bind] at h
      | ok p =>
          obtain ⟨a, v₁⟩ := p
          rw [hw] at h
          simp [bind, Except.bind] at h
          rw [← h]
          exact withdraw_invariant hv hw
  | withdrawAll t =>
      simp only [applyOp] at h
      cases hw : v.withdraw_all t with
      | error e => rw [hw] at h; simp [bind, Except.bind] at h
      | ok p =>
          obtain ⟨a, v₁⟩ := p
          rw [hw] at h
          simp [bind, Except.bind] at h
          rw [← h]
          exact withdraw_all_invariant hv hw
  | withdrawPpm t ppm =>
      simp only [applyOp] at h
      cases hw : v.withdraw_ppm t ppm with
      | error e => rw [hw] at h; simp [bind, Except.bind] at h
      | ok p =>
          obtain ⟨a, v₁⟩ := p
          rw [hw] at h
          simp [bind, Except.bind] at h
          rw [← h]
          exact withdraw_ppm_invariant hv hw

/-- A successful operation sequence preserves the ledger invariant. -/
theorem runOps_invariant {v : Vault} (hv : VaultInvariant v)
    {ops : List VaultOp} {v' : Vault}
    (h : runOps v ops = .ok v') : VaultInvariant v' := by
  induction ops generalizing v with
  | nil =>
      simp only [runOps, Except.ok.injEq] at h
      exact h ▸ hv
  | cons op rest ih =>
      simp only [runOps] at h
      cases hop : applyOp v op with
      | error e => rw [hop] at h; simp [bind, Except.bind] at h
      | ok v₁ =>
          rw [hop] at h
          simp only [bind, Except.bind] at h
          exact ih (applyOp_invariant hv hop) h

/-- A withdrawal not exceeding the tracked balance succeeds, removing the
entry on exact depletion and decrementing it otherwise. -/
theorem withdraw_ok {v : Vault} {t : Token} {B amount : Nat}
    (hB : mget? v.balances t = some B) (hle : amount ≤ B) :
    v.withdraw t amount =
      .ok (amount,
        if B - amount = 0 then v.remove_token_entry t
        else { v with balances := mput v.balances t (B - amount) }) := by
  unfold Vault.withdraw Vault.balance_of
  rw [hB]
  simp only [bind, Except.bind, Nat.not_lt.mpr hle, if_false]
  by_cases hz : B - amount = 0
  · simp [hz]
  · simp [hz]

/-- **C2.** After any successful sequence of `deposit` / `withdraw` /
`withdrawAll` / `withdrawPpm` operations starting from an invariant-satisfying
vault (the fresh vault satisfies it), the ordered token list and the balance
map have identical key sets, the list has no duplicates, every tracked asset
has a strictly positive balance, and no zero balance is retained — all
captured by `VaultInvariant` (balances are `Nat`, so none is negative). -/
theorem C2_ledger_invariant :
    VaultInvariant Vault.new ∧
    ∀ (v : Vault) (ops : List VaultOp) (v' : Vault),
      VaultInvariant v → runOps v ops = .ok v' → VaultInvariant v' := by
  constructor
  · refine ⟨List.nodup_nil, List.nodup_nil, ?_, ?_⟩
    · intro t ht
      simp [Vault.new] at ht
    · intro p hp
      simp [Vault.new] at hp
  · intro v ops v' hv h
    exact runOps_invariant hv h

/-- Witness for C2: a concrete operation sequence (deposit, partial withdraw,
ppm withdraw, withdraw-all) run from the fresh vault, whose result satisfies
the invariant by the theorem. -/
theorem C2_ledger_invariant_witness :
    runOps Vault.new
        [.deposit 7 5, .withdraw 7 2, .withdrawPpm 7 500000, .withdrawAll 7] =
      .ok ⟨[], [], none⟩ ∧
    VaultInvariant (⟨[], [], none⟩ : Vault) := by
  refine ⟨by rfl, ?_⟩
  exact C2_ledger_invariant.2 Vault.new
    [.deposit 7 5, .withdraw 7 2, .withdrawPpm 7 500000, .withdrawAll 7]
    ⟨[], [], none⟩ C2_ledger_invariant.1 (by rfl)

/-- **C3 (code bug).** `Vault::withdraw_all` on an asset absent from the
vault does *not* return zero: it aborts with the `Token not found in vault`
error, because it reads the balance through `Vault::balance_of`, which
signals an error for a missing key — contradicting both the spec sentence
and the function's own doc comment (`Returns 0 if token not found`). -/
theorem C3_withdraw_all_absent_fails :
    Vault.new.withdraw_all 5 = .error (.tokenNotFound 5) := by
  rfl

/-- **C5.** For a tracked asset with balance `B`: `withdrawPpm` with
`ppm ≤ 1_000_000` withdraws exactly `⌊B * ppm / 1_000_000⌋`; with
`ppm = 1_000_000` it withdraws exactly `B`; with `ppm = 0` it withdraws 0 and
leaves the ledger unchanged; and `ppm > 1_000_000` is rejected with the
`InvalidPpm` error at the point of use (inside `ppm_of`). -/
theorem C5_withdraw_ppm (v : Vault) (t : Token) (B ppm : Nat)
    (hB : mget? v.balances t = some B) :
    (ppm ≤ 1000000 →
      ∃ v', v.withdraw_ppm t ppm = .ok (B * ppm / 1000000, v')) ∧
    (ppm = 1000000 → ∃ v', v.withdraw_ppm t ppm = .ok (B, v')) ∧
    (ppm = 0 → v.withdraw_ppm t ppm = .ok (0, v)) ∧
    (ppm > 1000000 → v.withdraw_ppm t ppm = .error (.invalidPpm ppm)) := by
  have hbal : v.balance_of t = .ok B := by
    unfold Vault.balance_of
    rw [hB]
  have hmain : ppm ≤ 1000000 →
      ∃ v', v.withdraw_ppm t ppm = .ok (B * ppm / 1000000, v') := by
    intro hle
    have hppm : v.ppm_of t ppm = .ok (B * ppm / 1000000) := by
      unfold Vault.ppm_of
      simp [Nat.not_lt.mpr hle, hbal, bind, Except.bind]
    have hamt : B * ppm / 1000000 ≤ B := by
      calc B * ppm / 1000000 ≤ B * 1000000 / 1000000 :=
            Nat.div_le_div_right (Nat.mul_le_mul_left _ hle)
        _ = B := Nat.mul_div_cancel B (by norm_num)
    unfold Vault.withdraw_ppm
    rw [hppm]
    simp only [bind, Except.bind]
    by_cases hz : B * ppm / 1000000 > 0
    · rw [if_pos hz, withdraw_ok hB hamt]
      exact ⟨_, rfl⟩
    · rw [if_neg hz]
      refine ⟨v, ?_⟩
      have : B * ppm / 1000000 = 0 := Nat.eq_zero_of_not_pos hz
      rw [this]
  refine ⟨hmain, ?_, ?_, ?_⟩
  · intro he
    subst he
    obtain ⟨v', hv'⟩ := hmain (le_refl _)
    exact ⟨v', by rwa [Nat.mul_div_cancel B (by norm_num : (0:Nat) < 1000000)] at hv'⟩
  · intro he
    subst he
    have hppm : v.ppm_of t 0 = .ok 0 := by
      unfold Vault.ppm_of
      simp [hbal, bind, Except.bind]
    unfold Vault.withdraw_ppm
    rw [hppm]
    simp [bind, Except.bind]
  · intro hgt
    unfold Vault.withdraw_ppm Vault.ppm_of
    simp [hgt, bind, Except.bind]

/-- Witness for C5 on a concrete vault: balance 10 of token 3, ppm 400000
withdraws exactly 4. -/
theorem C5_withdraw_ppm_witness :
    mget? (⟨[(3, 10)], [3], none⟩ : Vault).balances 3 = some 10 ∧
    (∃ v', (⟨[(3, 10)], [3], none⟩ : Vault).withdraw_ppm 3 400000 =
      .ok (10 * 400000 / 1000000, v')) := by
  refine ⟨by decide, ?_⟩
  exact (C5_withdraw_ppm ⟨[(3, 10)], [3], none⟩ 3 10 400000 (by decide)).1
    (by norm_num)

/-- **C8 counterexample.** On an asset absent from the vault (so any
zero-default reading of "current balance" is below the requested amount),
`Vault::withdraw` fails with the `Token not found in vault` error, not with
`InsufficientBalance`: the claimed "exactly when" equivalence fails for
untracked assets. -/
theorem C8_withdraw_absent_counterexample :
    Vault.new.withdraw 0 1 = .error (.tokenNotFound 0) ∧
    (Except.error (.tokenNotFound 0) ≠
      (Except.error (.insufficientBalance 0 0 1) :
        Except AggError (Nat × Vault))) := by
  refine ⟨by rfl, ?_⟩
  intro h
  exact AggError.noConfusion (Except.error.inj h)

/-- **C8 (amended).** For an asset *tracked* by the vault with balance `B`:
`withdraw` fails with `InsufficientBalance` (carrying the asset and the
have/need amounts) exactly when `B < amount`; on success with exact depletion
the asset is removed from both the map and the ordered list, and otherwise
only its stored balance is decremented.  For an *absent* asset `withdraw`
fails with the token-not-found error instead. -/
theorem C8_withdraw_amended (v : Vault) (t : Token) (B amount : Nat)
    (hB : mget? v.balances t = some B) :
    (B < amount →
      v.withdraw t amount = .error (.insufficientBalance t B amount)) ∧
    (amount ≤ B →
      v.withdraw t amount =
        .ok (amount,
          if B - amount = 0 then v.remove_token_entry t
          else { v with balances := mput v.balances t (B - amount) })) ∧
    (∀ t' amt, mget? v.balances t' = none →
      v.withdraw t' amt = .error (.tokenNotFound t')) := by
  have hbal : v.balance_of t = .ok B := by
    unfold Vault.balance_of
    rw [hB]
  refine ⟨?_, ?_, ?_⟩
  · intro hlt
    unfold Vault.withdraw
    rw [hbal]
    simp [bind, Except.bind, hlt]
  · intro hle
    exact withdraw_ok hB hle
  · intro t' amt hnone
    unfold Vault.withdraw Vault.balance_of
    rw [hnone]
    simp [bind, Except.bind]

/-- Witness for C8 (amended) on a concrete vault: balance 10 of token 3;
withdrawing 11 fails with `InsufficientBalance`, withdrawing 10 depletes and
removes the entry, and the untracked token 4 fails with token-not-found. -/
theorem C8_withdraw_amended_witness :
    mget? (⟨[(3, 10)], [3], none⟩ : Vault).balances 3 = some 10 ∧
    (⟨[(3, 10)], [3], none⟩ : Vault).withdraw 3 11 =
      .error (.insufficientBalance 3 10 11) := by
  refine ⟨by decide, ?_⟩
  exact (C8_withdraw_amended ⟨[(3, 10)], [3], none⟩ 3 10 11 (by decide)).1
    (by norm_num)

/-- **C4.** Input resolution in `PrevAmount` mode: with no previous result it
fails with `PrevAmount not available`; with a previous result of a different
asset it fails with `PrevAmount token mismatch`; and otherwise (given the
ledger holds at least the previous amount, which is positive) it withdraws
exactly the previous result's amount of that asset. -/
theorem C4_prev_amount_mode (v : Vault) (t : Token) :
    (v.prevResult = none →
      resolveInput v ⟨t, .prevAmount⟩ = .error .prevAmountUnavailable) ∧
    (∀ pt pa, v.prevResult = some (pt, pa) → t ≠ pt →
      resolveInput v ⟨t, .prevAmount⟩ = .error .prevAmountMismatch) ∧
    (∀ pa B, v.prevResult = some (t, pa) → mget? v.balances t = some B →
      pa ≤ B → 0 < pa →
      resolveInput v ⟨t, .prevAmount⟩ =
        .ok (pa,
          if B - pa = 0 then v.remove_token_entry t
          else { v with balances := mput v.balances t (B - pa) })) := by
  refine ⟨?_, ?_, ?_⟩
  · intro hnone
    unfold resolveInput
    rw [hnone]
    rfl
  · intro pt pa hsome hne
    unfold resolveInput
    rw [hsome]
    simp [bind, Except.bind, hne]
  · intro pa B hsome hB hle hpos
    unfold resolveInput
    rw [hsome]
    simp only [if_pos rfl, bind, Except.bind]
    rw [withdraw_ok hB hle]
    simp only [hpos, if_pos hpos]
    simp [hsome]

/-- Witness for C4: a vault holding 10 of token 3 with previous result
`(3, 4)` resolves a `PrevAmount` input to a withdrawal of exactly 4. -/
theorem C4_prev_amount_mode_witness :
    (⟨[(3, 10)], [3], some (3, 4)⟩ : Vault).prevResult = some (3, 4) ∧
    resolveInput (⟨[(3, 10)], [3], some (3, 4)⟩ : Vault) ⟨3, .prevAmount⟩ =
      .ok (4, ⟨[(3, 6)], [3], some (3, 4)⟩) := by
  refine ⟨rfl, ?_⟩
  have h := (C4_prev_amount_mode ⟨[(3, 10)], [3], some (3, 4)⟩ 3).2.2 4 10 rfl
    (by rfl) (by norm_num) (by norm_num)
  rw [h]
  rfl

/-- **C7.** With an active referral of `fee` basis points on an output
balance `B` (and enough balance for the double fee), `apply_fees` withdraws
exactly `2 * ⌊B * fee / 10_000⌋` of the output token, accruing
`⌊B * fee / 10_000⌋` to the referrer pool and the same amount to the
protocol pool. -/
theorem C7_fee_accrual (cfg : FeeConfig) (v : Vault) (t : Token)
    (referralId : Nat) (pools : FeePools) (config : ReferralConfig) (B : Nat)
    (hid : 0 < referralId)
    (hcfg : mget? cfg.referralConfigs referralId = some config)
    (hactive : config.active = true) (hfee : 0 < config.fee)
    (hB : mget? v.balances t = some B)
    (htot : B * config.fee / 10000 + B * config.fee / 10000 ≤ B) :
    apply_fees cfg v t referralId pools =
      .ok
        (if B - (B * config.fee / 10000 + B * config.fee / 10000) = 0 then
          v.remove_token_entry t
         else
          { v with
            balances :=
              mput v.balances t
                (B - (B * config.fee / 10000 + B * config.fee / 10000)) },
         accumulate_admin_fee
           (accumulate_referrer_fee pools referralId t (B * config.fee / 10000))
           t (B * config.fee / 10000)) := by
  have hbal : v.balance_of t = .ok B := by
    unfold Vault.balance_of
    rw [hB]
  unfold apply_fees
  rw [hbal]
  simp only [bind, Except.bind, if_pos hid, hcfg,
    if_pos (show config.active = true ∧ config.fee > 0 from ⟨hactive, hfee⟩)]
  rw [withdraw_ok hB htot]

/-- Witness for C7, at the claim's concrete numbers: a 100-basis-point
referral fee on an output balance of 10,000 accrues 100 to the referrer pool
and 100 to the protocol pool, leaving 9,800 in the vault. -/
theorem C7_fee_accrual_witness :
    mget? (⟨[(3, 10000)], [3], none⟩ : Vault).balances 3 = some 10000 ∧
    apply_fees ⟨[(1, ⟨9, 100, true⟩)], 0⟩ ⟨[(3, 10000)], [3], none⟩ 3 1
        ⟨[], []⟩ =
      .ok (⟨[(3, 9800)], [3], none⟩, ⟨[(3, 100)], [((1, 3), 100)]⟩) := by
  refine ⟨by rfl, ?_⟩
  have h := C7_fee_accrual ⟨[(1, ⟨9, 100, true⟩)], 0⟩
    ⟨[(3, 10000)], [3], none⟩ 3 1 ⟨[], []⟩ ⟨9, 100, true⟩ 10000
    (by norm_num) (by rfl) rfl (by norm_num) (by rfl) (by norm_num)
  rw [h]
  rfl

/-- **C1.** If, after all instructions of a batch have executed, the vault's
balance of the declared output token is below `min_amount_out`, the whole
`aggregate` call evaluates to the `InsufficientOutput` (slippage) error.  In
the `Except` model an error result is the aborted transaction: no transfer
list is produced and none of the fee-pool or ledger mutations made by prior
steps survive (the committed state is the pre-call one). -/
theorem C1_slippage_gate (cfg : FeeConfig) (pools0 pools1 : FeePools)
    (ptok : Token) (pnonce pamt minAmountOut tokenOut referralId : Nat)
    (tokens : List Token) (addresses amounts : List Nat)
    (instrs : List (Compact6 × List (Token × Nat)))
    (vault0 v1 : Vault) (tokenOutId : Token) (bal : Nat)
    (hpay : Vault.from_payment ptok pnonce pamt = .ok vault0)
    (hres : resolve_token_to_id tokenOut tokens = .ok tokenOutId)
    (hrun : runCompactInstructions tokens addresses amounts tokenOutId vault0
      pools0 instrs = .ok (v1, pools1))
    (hbal : v1.balance_of tokenOutId = .ok bal)
    (hlt : bal < minAmountOut) :
    aggregate cfg pools0 ptok pnonce pamt minAmountOut tokenOut referralId
      tokens addresses amounts instrs =
      .error (.insufficientOutput bal minAmountOut) := by
  unfold aggregate
  rw [hpay]
  simp only [bind, Except.bind]
  rw [hres]
  simp only [bind, Except.bind]
  rw [hrun]
  simp only [bind, Except.bind]
  rw [hbal]
  simp only [bind, Except.bind]
  rw [if_pos hlt]

/-- Witness for C1: a batch depositing 100 of token 5 with no instructions
and a declared minimum of 200 fails with `InsufficientOutput 100 200`. -/
theorem C1_slippage_gate_witness :
    Vault.from_payment 5 0 100 = .ok ⟨[(5, 100)], [5], none⟩ ∧
    aggregate ⟨[], 0⟩ ⟨[], []⟩ 5 0 100 200 0 0 [5] [] [] [] =
      .error (.insufficientOutput 100 200) := by
  refine ⟨by rfl, ?_⟩
  exact C1_slippage_gate ⟨[], 0⟩ ⟨[], []⟩ ⟨[], []⟩ 5 0 100 200 0 0 [5] [] []
    [] ⟨[(5, 100)], [5], none⟩ ⟨[(5, 100)], [5], none⟩ 5 100 (by rfl)
    (by rfl) (by rfl) (by rfl) (by norm_num)

/-- **C10.** Fees are applied only after the batch-level minimum-output check:
the check reads the pre-fee balance, and `apply_fees` then deducts from it.
Concretely, a batch whose pre-fee output balance exactly equals the declared
minimum of 10,000, under a 100-basis-point static fee, passes the check and
returns only 9,900 of the output token to the caller — strictly less than
`min_amount_out`. -/
theorem C10_fee_after_min_check :
    aggregate ⟨[], 100⟩ ⟨[], []⟩ 5 0 10000 10000 0 0 [5] [] [] [] =
      .ok ([(5, 9900)], ⟨[(5, 100)], []⟩) ∧
    9900 < 10000 := by
  exact ⟨by rfl, by norm_num⟩

/-- When the fee numerator exceeds the denominator, the swap simulation
short-circuits to all zeros. -/
theorem simulate_zero_of_fee {a ri ro fn fd : Nat} (h : fd < fn)
    (mode : FeeMode) : simulate_swap_output a ri ro fn fd mode = (0, 0, 0) := by
  unfold simulate_swap_output
  by_cases hz : a = 0 ∨ ri = 0 ∨ ro = 0
  · rw [if_pos hz]
  · rw [if_neg hz, if_pos h]

/-- With `fee_num > fee_denom` every midpoint simulation yields a zero
output, so the binary-search loop never updates `best_swap`. -/
theorem bsLoop_fee {sb ob ri ro fn fd : Nat} (h : fd < fn) (mode : FeeMode) :
    ∀ (fuel : Nat) (s : BsState),
      bsLoop sb ob ri ro fn fd mode s fuel = s.bestSwap := by
  intro fuel
  induction fuel with
  | zero => intro s; rfl
  | succ n ih =>
      intro s
      unfold bsLoop
      by_cases hb : s.high ≤ s.low + 1
      · rw [if_pos hb]
      · rw [if_neg hb]
        simp only [simulate_zero_of_fee h mode]
        exact ih _

/-- With `fee_num > fee_denom` the binary search returns a zero swap
amount. -/
theorem binary_search_fee {bf bs rf rs fn fd : Nat} (h : fd < fn)
    (mode : FeeMode) (dir : Bool) :
    binary_search_pre_swap bf bs rf rs fn fd mode dir = 0 := by
  unfold binary_search_pre_swap
  cases dir
  · simpa using bsLoop_fee h mode MAX_BINARY_SEARCH_ITERATIONS ⟨0, bs, 0, bs⟩
  · simpa using bsLoop_fee h mode MAX_BINARY_SEARCH_ITERATIONS ⟨0, bf, 0, bf⟩

/-- **C6.** The pre-swap solver returns a swap amount of 0 whenever either
held amount is zero or either pool reserve is zero; whenever the fee
numerator exceeds the fee denominator; and whenever the held balances are
exactly proportional to the reserves
(`balance_first * reserve_second = balance_second * reserve_first`). -/
theorem C6_solver_no_swap (bf bs rf rs fn fd : Nat) (mode : FeeMode) :
    (bf = 0 ∨ bs = 0 ∨ rf = 0 ∨ rs = 0 →
      compute_optimal_pre_swap bf bs rf rs fn fd mode = (true, 0)) ∧
    (fd < fn → (compute_optimal_pre_swap bf bs rf rs fn fd mode).2 = 0) ∧
    (bf * rs = bs * rf →
      compute_optimal_pre_swap bf bs rf rs fn fd mode = (true, 0)) := by
  refine ⟨?_, ?_, ?_⟩
  · intro h
    unfold compute_optimal_pre_swap
    rw [if_pos h]
  · intro h
    unfold compute_optimal_pre_swap
    by_cases hz : bf = 0 ∨ bs = 0 ∨ rf = 0 ∨ rs = 0
    · rw [if_pos hz]
    · rw [if_neg hz]
      by_cases h1 : bs * rf < bf * rs
      · rw [if_pos h1]
        exact binary_search_fee h mode true
      · rw [if_neg h1]
        by_cases h2 : bf * rs < bs * rf
        · rw [if_pos h2]
          exact binary_search_fee h mode false
        · rw [if_neg h2]
  · intro h
    unfold compute_optimal_pre_swap
    by_cases hz : bf = 0 ∨ bs = 0 ∨ rf = 0 ∨ rs = 0
    · rw [if_pos hz]
    · rw [if_neg hz, if_neg (by omega), if_neg (by omega)]

/-- Witness for C6: a zero held balance, an over-unity fee, and exactly
proportional holdings each produce a zero swap amount. -/
theorem C6_solver_no_swap_witness :
    ((0 : Nat) = 0 ∨ (5 : Nat) = 0 ∨ (7 : Nat) = 0 ∨ (9 : Nat) = 0) ∧
    compute_optimal_pre_swap 0 5 7 9 3 10 (.onInput 1) = (true, 0) ∧
    (10 : Nat) < 11 ∧
    (compute_optimal_pre_swap 3 5 7 9 11 10 (.onInput 1)).2 = 0 ∧
    2 * 6 = 4 * 3 ∧
    compute_optimal_pre_swap 2 4 3 6 3 10 (.onOutput 1) = (true, 0) := by
  refine ⟨Or.inl rfl, ?_, by norm_num, ?_, by norm_num, ?_⟩
  · exact (C6_solver_no_swap 0 5 7 9 3 10 (.onInput 1)).1 (Or.inl rfl)
  · exact (C6_solver_no_swap 3 5 7 9 11 10 (.onInput 1)).2.1 (by norm_num)
  · exact (C6_solver_no_swap 2 4 3 6 3 10 (.onOutput 1)).2.2 (by norm_num)

/-- Peel one `Except` bind off a successful computation. -/
theorem except_bind_ok {ε α β : Type} {e : Except ε α} {f : α → Except ε β}
    {b : β} (h : (e >>= f) = .ok b) : ∃ a, e = .ok a ∧ f a = .ok b := by
  cases e with
  | error err => simp [bind, Except.bind] at h
  | ok a => exact ⟨a, rfl, by simpa [bind, Except.bind] using h⟩

/-- For the multi-input shared-mode add-liquidity category, every successful
decode produces an explicit input list (never the `none` chaining signal). -/
theorem build_inputs_multi_isSome {ca : CompactAction}
    (hm : ca.is_multi_input_add_liquidity = true)
    (tok1 mode1 tok2 mode2 addr : Nat) (tokens : List Token)
    (amounts : List Nat) {r : Option (List InputArg)}
    (hr : build_inputs ca tok1 mode1 tok2 mode2 addr tokens amounts = .ok r) :
    r.isSome := by
  have hnot : ca.needs_output_token = false := by
    cases ca <;> first | rfl | exact absurd hm (by decide)
  unfold build_inputs at hr
  rw [if_neg (by simp [hnot]), if_pos (by simp [hm])] at hr
  obtain ⟨am, ham, hr⟩ := except_bind_ok hr
  obtain ⟨t1, ht1, hr⟩ := except_bind_ok hr
  obtain ⟨i2, hi2, hr⟩ := except_bind_ok hr
  obtain ⟨i3, hi3, hr⟩ := except_bind_ok hr
  rw [← Except.ok.inj hr]
  rfl

/-- For the pair-id-bearing add-liquidity category, every successful decode
produces an explicit input list (never the `none` chaining signal). -/
theorem build_inputs_pair_isSome {ca : CompactAction}
    (hp : ca.needs_pair_id = true)
    (tok1 mode1 tok2 mode2 addr : Nat) (tokens : List Token)
    (amounts : List Nat) {r : Option (List InputArg)}
    (hr : build_inputs ca tok1 mode1 tok2 mode2 addr tokens amounts = .ok r) :
    r.isSome := by
  have h1 : ca.needs_output_token = false := by
    cases ca <;> first | rfl | exact absurd hp (by decide)
  have h2 : ca.is_multi_input_add_liquidity = false := by
    cases ca <;> first | rfl | exact absurd hp (by decide)
  have h3 : ca.needs_output_count = false := by
    cases ca <;> first | rfl | exact absurd hp (by decide)
  unfold build_inputs at hr
  rw [if_neg (by simp [h1]), if_neg (by simp [h2]), if_neg (by simp [h3]),
    if_pos (by simp [hp])] at hr
  obtain ⟨t1, ht1, hr⟩ := except_bind_ok hr
  obtain ⟨a1, ha1, hr⟩ := except_bind_ok hr
  obtain ⟨t2, ht2, hr⟩ := except_bind_ok hr
  obtain ⟨a2, ha2, hr⟩ := except_bind_ok hr
  rw [← Except.ok.inj hr]
  rfl

/-- **C9 counterexample.** In the multi-input shared-mode category
(`AshSwapPoolAddLiquidity`), a compact tuple whose decoded input amount mode
is `PrevAmount` (shared-mode byte 1) and whose input token index is the
"no value" sentinel 255 still decodes to an *explicit* input list — the
decoder never omits the input list for this category, contradicting the
claim's "every action category". -/
theorem C9_prev_none_counterexample :
    CompactMode.from_u8 1 = .prev ∧
    build_inputs .ashSwapPoolAddLiquidity 255 255 255 1 0 [] [] =
      .ok (some [⟨EMPTY_BUF, .prevAmount⟩]) := by
  exact ⟨rfl, rfl⟩

/-- **C9 (amended).** The `PrevAmount`-with-no-value-index tuple omits the
input list (decodes to `inputs = none`) exactly in the three categories that
implement the short-circuit — single-input-with-output-asset, output-count
remove-liquidity, and the generic dual-input layout (on its first input).
The multi-input shared-mode and pair-id add-liquidity categories never omit
the input list: every successful decode there yields an explicit list. -/
theorem C9_prev_none_amended (ca : CompactAction)
    (tok1 mode1 tok2 mode2 addr : Nat) (tokens : List Token)
    (amounts : List Nat) :
    (ca.needs_output_token = true → CompactMode.from_u8 tok2 = .prev →
      mode1 = IDX_NONE →
      build_inputs ca tok1 mode1 tok2 mode2 addr tokens amounts = .ok none) ∧
    (ca.needs_output_count = true → CompactMode.from_u8 tok2 = .prev →
      mode1 = IDX_NONE →
      build_inputs ca tok1 mode1 tok2 mode2 addr tokens amounts = .ok none) ∧
    (ca.needs_output_token = false → ca.is_multi_input_add_liquidity = false →
      ca.needs_output_count = false → ca.needs_pair_id = false →
      CompactMode.from_u8 mode1 = .prev → tok1 = IDX_NONE →
      build_inputs ca tok1 mode1 tok2 mode2 addr tokens amounts = .ok none) ∧
    ((ca.is_multi_input_add_liquidity = true ∨ ca.needs_pair_id = true) →
      ∀ r, build_inputs ca tok1 mode1 tok2 mode2 addr tokens amounts = .ok r →
        r.isSome) := by
  refine ⟨?_, ?_, ?_, ?_⟩
  · intro h1 hprev hnone
    unfold build_inputs
    rw [if_pos (by simp [h1])]
    simp [hprev, hnone]
  · intro hc hprev hnone
    have h1 : ca.needs_output_token = false := by
      cases ca <;> first | rfl | exact absurd hc (by decide)
    have h2 : ca.is_multi_input_add_liquidity = false := by
      cases ca <;> first | rfl | exact absurd hc (by decide)
    unfold build_inputs
    rw [if_neg (by simp [h1]), if_neg (by simp [h2]), if_pos (by simp [hc])]
    simp [hprev, hnone]
  · intro h1 h2 h3 h4 hprev hnone
    unfold build_inputs
    rw [if_neg (by simp [h1]), if_neg (by simp [h2]), if_neg (by simp [h3]),
      if_neg (by simp [h4])]
    simp [hprev, hnone]
  · rintro (hm | hp) r hr
    · exact build_inputs_multi_isSome hm _ _ _ _ _ _ _ hr
    · exact build_inputs_pair_isSome hp _ _ _ _ _ _ _ hr

/-- Witness for C9 (amended): an `XExchangeSwap` tuple with input mode byte 1
(`Prev`) and input token byte 255 decodes to an omitted input list. -/
theorem C9_prev_none_amended_witness :
    CompactAction.needs_output_token .xExchangeSwap = true ∧
    build_inputs .xExchangeSwap 0 255 1 0 255 [] [] = .ok none := by
  refine ⟨rfl, ?_⟩
  exact (C9_prev_none_amended .xExchangeSwap 0 255 1 0 255 [] []).1 rfl rfl rfl

end RsAggregator
